import Mathlib

/-!
Verification development for the blog-builder static site generator
(builder.py, content_tree.py, page_unit.py).

The embedding models Python strings as Lean strings (sequences of code
points), insertion-ordered Python dictionaries as association lists, and
the destination filesystem as an association list from absolute paths to
modification times in which the newest entry for a path shadows older
ones.  The stable Python list sort is modelled by a stable insertion sort;
a stable sort of a list under a total preorder is unique, so the model
agrees with the source exactly.
-/

/-! ### Generic helpers: stable sort and string primitives -/

-- Lexicographic comparison of code-point sequences; this is exactly the
-- Python string order used by list.sort and sorted.
def lexLe : List Char → List Char → Bool
  | [], _ => true
  | _ :: _, [] => false
  | a :: as, b :: bs => if a < b then true else if b < a then false else lexLe as bs

def strLe (s t : String) : Bool := lexLe s.toList t.toList

-- Stable insertion sort: an element is inserted after every earlier element
-- that compares less-or-equal, which is the stability contract of the
-- Python sort.
def ordInsert {α : Type} (le : α → α → Bool) (x : α) : List α → List α
  | [] => [x]
  | y :: ys => if le x y then x :: y :: ys else y :: ordInsert le x ys

def ordSort {α : Type} (le : α → α → Bool) : List α → List α
  | [] => []
  | x :: xs => ordInsert le x (ordSort le xs)

def isWS (c : Char) : Bool := c.isWhitespace

-- str.strip(): drop whitespace from both ends.
def stripChars (cs : List Char) : List Char :=
  ((cs.dropWhile isWS).reverse.dropWhile isWS).reverse

def pyStrip (s : String) : String := String.mk (stripChars s.toList)

def allDigits (cs : List Char) : Bool := cs.all (fun c => c.isDigit)

def digitsVal (cs : List Char) : Nat :=
  cs.foldl (fun n c => 10 * n + (c.toNat - 48)) 0

-- Python int(s): optional surrounding whitespace, an optional sign, then a
-- nonempty digit string.  (Digit grouping with underscores is not used by
-- directory names in this repository and is not modelled.)
def pyInt? (s : String) : Option Int :=
  match stripChars s.toList with
  | '-' :: rest => if !rest.isEmpty && allDigits rest then some (-(digitsVal rest : Int)) else none
  | '+' :: rest => if !rest.isEmpty && allDigits rest then some ((digitsVal rest : Int)) else none
  | cs => if !cs.isEmpty && allDigits cs then some ((digitsVal cs : Int)) else none

-- s.split(c, 1): split at the first occurrence of c only; none when c does
-- not occur.
def breakAtChar (c : Char) : List Char → Option (List Char × List Char)
  | [] => none
  | x :: xs =>
    if x = c then some ([], xs)
    else
      match breakAtChar c xs with
      | none => none
      | some p => some (x :: p.1, p.2)

def strStartsWithChar (s : String) (c : Char) : Bool :=
  match s.toList with
  | [] => false
  | x :: _ => x = c

def strEndsWithChar (s : String) (c : Char) : Bool :=
  match s.toList.getLast? with
  | none => false
  | some x => x = c

def splitOnCharGo (c : Char) : List Char → List Char → List (List Char)
  | [], acc => [acc.reverse]
  | x :: xs, acc =>
    if x = c then acc.reverse :: splitOnCharGo c xs [] else splitOnCharGo c xs (x :: acc)

def splitOnChar (c : Char) (cs : List Char) : List (List Char) := splitOnCharGo c cs []

/-! ### Directory names, slugs and paths (PageUnit.num_slug,
PageUnit.get_html_path, os.path helpers) -/

-- PageUnit.num_slug from page_unit.py, applied to the base name of a path:
-- split the name at the first dot; when the part before the dot parses as a
-- Python int the result is (that number, the remainder), else (-1, name).
def num_slug (base : String) : Int × String :=
  match breakAtChar '.' base.toList with
  | none => (-1, base)
  | some p =>
    match pyInt? (String.mk p.1) with
    | some n => (n, String.mk p.2)
    | none => (-1, base)

-- Index of the last dot of a name, when any.
def lastDotIdx (cs : List Char) : Option Nat :=
  match cs.reverse.findIdx? (fun c => c = '.') with
  | none => none
  | some k => some (cs.length - 1 - k)

-- os.path.splitext on a bare file name: the extension starts at the last
-- dot, unless every character before that dot is itself a dot.
def splitext (f : String) : String × String :=
  match lastDotIdx f.toList with
  | none => (f, "")
  | some i =>
    if (f.toList.take i).any (fun c => c ≠ '.') then
      (String.mk (f.toList.take i), String.mk (f.toList.drop i))
    else (f, "")

def extOf (f : String) : String := (splitext f).2

-- os.path.join for the cases arising here: the second argument is a
-- relative name unless it starts with a separator.
def joinPath (a b : String) : String :=
  if strStartsWithChar b '/' then b
  else if a = "" then b
  else if strEndsWithChar a '/' then a ++ b
  else a ++ "/" ++ b

def ensureSlash (s : String) : String :=
  if strEndsWithChar s '/' then s else s ++ "/"

-- PageUnit.get_html_path: strip the numeric prefix from every segment of
-- the relative source path and join the resulting slugs.
def get_html_path (dirnames : List String) : String :=
  dirnames.foldl (fun acc d => joinPath acc (num_slug d).2) ""

-- html_path as computed in the PageUnit constructor: html_root joined with
-- the stripped relative path, with a trailing slash appended.
def pageHtmlPath (htmlRoot : String) (dirnames : List String) : String :=
  ensureSlash (joinPath htmlRoot (get_html_path dirnames))

/-! ### Tree walk: ContentTree.slurp_walk and ContentTree.add_page -/

-- The walk sorts the file list of a directory and calls add_page once for
-- EVERY file whose splitext extension equals the configured content
-- extension; this returns those files in call order.
def dirContentFiles (contentExt : String) (files : List String) : List String :=
  (ordSort strLe files).filter (fun f => extOf f == contentExt)

-- add_page drops the page when the numeric prefix of the directory name is
-- negative; otherwise every call appends a fresh PageUnit.  The result
-- lists, in order, the content file of each PageUnit appended for this
-- directory; the page_dict registration is overwritten on each call, so
-- the last element wins there.
def slurpDirPages (contentExt : String) (dirBase : String) (files : List String) : List String :=
  if (num_slug dirBase).1 < 0 then [] else dirContentFiles contentExt files

/-! ### Link pass: children and parents (PageUnit.populate) -/

-- Slugs of the subdirectories whose numeric prefix is strictly positive,
-- in subdirectory order.
def childSlugs (subdirs : List String) : List String :=
  subdirs.filterMap (fun d => if 0 < (num_slug d).1 then some (num_slug d).2 else none)

-- Child lookup key: os.path.join(html_path, slug) with a trailing slash
-- appended; html_path always ends in a slash already.
def childHtmlPath (htmlPath slug : String) : String :=
  ensureSlash (joinPath htmlPath slug)

structure LinkPage where
  pid : Nat
  htmlPath : String
  subdirs : List String
deriving DecidableEq, Repr

-- page_dict as built by ContentTree.add_page: html_path maps to the page.
def pagesDict (pages : List LinkPage) : List (String × Nat) :=
  pages.map (fun p => (p.htmlPath, p.pid))

-- PageUnit.populate: children are the pages found in page_dict under the
-- child html paths of the positively numbered subdirectories; lookup
-- misses are logged and dropped.
def childrenOf (pageDict : List (String × Nat)) (htmlPath : String) (subdirs : List String) : List Nat :=
  (childSlugs subdirs).filterMap (fun slug => pageDict.lookup (childHtmlPath htmlPath slug))

-- PageUnit.populate breadcrumb loop: starting from html_root with a
-- trailing slash, append each slug of the relative html path in turn
-- (urljoin of a base ending in a slash with a plain relative segment adds
-- the segment and a slash), collecting every prefix registered in
-- page_dict.  Empty slugs are skipped.
def parentsLoop (pageDict : List (String × Nat)) : String → List String → List Nat
  | _, [] => []
  | base, slug :: rest =>
    if slug = "" then parentsLoop pageDict base rest
    else
      match pageDict.lookup (base ++ slug ++ "/") with
      | some pid => pid :: parentsLoop pageDict (base ++ slug ++ "/") rest
      | none => parentsLoop pageDict (base ++ slug ++ "/") rest

def parentsOf (pageDict : List (String × Nat)) (htmlRoot : String) (parentSlugs : List String) : List Nat :=
  parentsLoop pageDict (ensureSlash htmlRoot) parentSlugs

-- self.level = len(self.parents)
def levelOf (pageDict : List (String × Nat)) (htmlRoot : String) (parentSlugs : List String) : Nat :=
  (parentsOf pageDict htmlRoot parentSlugs).length

-- The final lookup key formed by the breadcrumb loop.
def fullKey (htmlRoot : String) (parentSlugs : List String) : String :=
  parentSlugs.foldl (fun base slug => if slug = "" then base else base ++ slug ++ "/")
    (ensureSlash htmlRoot)

/-! ### Content file parsing (PageUnit.parse_content_file) -/

-- words = line.split(None, 1): leading whitespace skipped, the first token
-- is the run of non-whitespace characters, the remainder follows the
-- separating whitespace run; none when the line is blank.
def firstTokenSplit (cs : List Char) : Option (List Char × List Char) :=
  match cs.dropWhile isWS with
  | [] => none
  | c :: rest =>
    some ((c :: rest).takeWhile (fun x => !(isWS x)),
      (((c :: rest).dropWhile (fun x => !(isWS x))).dropWhile isWS))

def endsWithColon (tok : List Char) : Bool :=
  match tok.getLast? with
  | some c => c = ':'
  | none => false

-- words[0].rstrip(colon): drop every trailing colon.
def rstripColon (tok : List Char) : List Char :=
  (tok.reverse.dropWhile (fun c => c = ':')).reverse

-- The header key of a processed line, when the line has one: the first
-- token ends with a colon and the key is that token with trailing colons
-- removed.
def headerKeyOf (line : String) : Option String :=
  match firstTokenSplit line.toList with
  | none => none
  | some p => if endsWithColon p.1 then some (String.mk (rstripColon p.1)) else none

-- The header value of a processed line: the stripped remainder after the
-- first token, empty when there is none.
def headerValOf (line : String) : String :=
  match firstTokenSplit line.toList with
  | none => ""
  | some p => String.mk (stripChars p.2)

def isContentLine (line : String) : Bool := headerKeyOf line == some "content"

-- Python dict assignment d[k] = v on an insertion-ordered dictionary:
-- replace the entry in place when the key is present, else append.
def dictSet : List (String × String) → String → String → List (String × String)
  | [], k, v => [(k, v)]
  | kv :: rest, k, v => if kv.1 = k then (k, v) :: rest else kv :: dictSet rest k v

-- The scan of parse_content_file after comment filtering: a line whose
-- first token ends in a colon sets a header field, except that the key
-- content stops the scan and stores the remaining lines, joined by
-- newlines, under content_raw.
def parseLinesGo (hd : List (String × String)) : List String → List (String × String)
  | [] => hd
  | line :: rest =>
    match firstTokenSplit line.toList with
    | none => parseLinesGo hd rest
    | some p =>
      if endsWithColon p.1 then
        if String.mk (rstripColon p.1) = "content" then
          dictSet hd "content_raw" (String.intercalate "\n" rest)
        else parseLinesGo (dictSet hd (String.mk (rstripColon p.1)) (String.mk (stripChars p.2))) rest
      else parseLinesGo hd rest

-- Comment filtering in parse_content_file: strip every line, drop stripped
-- lines that start with a hash.
def processedLines (lines : List String) : List String :=
  (lines.map (fun l => String.mk (stripChars l.toList))).filter
    (fun l => !(strStartsWithChar l '#'))

def initHeaderDict : List (String × String) :=
  [("content_raw", ""), ("template", "default")]

-- PageUnit.parse_content_file on the lines of an existing content file.
def parse_content_file (lines : List String) : List (String × String) :=
  parseLinesGo initHeaderDict (processedLines lines)

/-! ### Template selection (PageUnit.populate) -/

-- Template choice: the value default means no explicit template, in which
-- case gallery is used when the page has children and leaf otherwise.
def templateNameOf (ldictTemplate : String) (numChildren : Nat) : String :=
  if ldictTemplate = "default" then
    (if 0 < numChildren then "gallery" else "leaf")
  else ldictTemplate

-- The template name resolved for a page from its parsed content file; the
-- header dictionary always carries a template entry, defaulted above.
def resolvedTemplateName (lines : List String) (numChildren : Nat) : String :=
  templateNameOf (((parse_content_file lines).lookup "template").getD "default") numChildren

-- template_dict lookup with fallback: a missing name falls back to leaf,
-- and a missing leaf template is a fatal exit, modelled as none.
def selectTemplate (registry : List String) (name : String) : Option String :=
  if registry.contains name then some name
  else if registry.contains "leaf" then some "leaf"
  else none

/-! ### Tag index (ContentTree.munge_loop) -/

structure TagRef where
  htmlPath : String
  tags : List String
deriving DecidableEq, Repr

-- munge_loop tag collection: append each page to the list of every tag it
-- carries, tags kept in first-seen order.
def addTag (acc : List (String × List TagRef)) (t : String) (p : TagRef) :
    List (String × List TagRef) :=
  if (acc.lookup t).isSome then
    acc.map (fun kv => if kv.1 = t then (kv.1, kv.2 ++ [p]) else kv)
  else acc ++ [(t, [p])]

def collectTags (pages : List TagRef) : List (String × List TagRef) :=
  pages.foldl (fun acc p => p.tags.foldl (fun a t => addTag a t p) acc) []

def tagLe (a b : String × List TagRef) : Bool := strLe a.1 b.1

def pageRefLe (a b : TagRef) : Bool := strLe a.htmlPath b.htmlPath

-- munge_loop: sorted(self.tags.items()), then each value list sorted with
-- the PageUnit order, which compares html_path.
def mungeTagIndex (pages : List TagRef) : List (String × List TagRef) :=
  (ordSort tagLe (collectTags pages)).map (fun kv => (kv.1, ordSort pageRefLe kv.2))

/-! ### Dates and RSS (ContentTree._get_sortable_date_or_log_error,
ContentTree.generate_rss) -/

def isLeapYear (y : Nat) : Bool := y % 4 == 0 && (y % 100 != 0 || y % 400 == 0)

def daysInMonth (y m : Nat) : Nat :=
  if m = 2 then (if isLeapYear y then 29 else 28)
  else if m = 4 ∨ m = 6 ∨ m = 9 ∨ m = 11 then 30
  else 31

-- datetime.strptime with format Y-m-d: a four-digit year, a one- or
-- two-digit month from 1 to 12, a one- or two-digit day from 1 to 31, the
-- whole string consumed, and the result must be a valid Gregorian date
-- with year at least 1.
def parseDateYMD (s : String) : Option (Nat × Nat × Nat) :=
  match splitOnChar '-' s.toList with
  | [ys, ms, ds] =>
    if allDigits ys && ys.length == 4 &&
       allDigits ms && (ms.length == 1 || ms.length == 2) &&
       allDigits ds && (ds.length == 1 || ds.length == 2) then
      if 1 ≤ digitsVal ys ∧ 1 ≤ digitsVal ms ∧ digitsVal ms ≤ 12 ∧
         1 ≤ digitsVal ds ∧ digitsVal ds ≤ daysInMonth (digitsVal ys) (digitsVal ms) then
        some (digitsVal ys, digitsVal ms, digitsVal ds)
      else none
    else none
  | _ => none

inductive LogKind where
  | warning
  | logError
deriving DecidableEq, Repr

def epochDate : Nat × Nat × Nat := (1970, 1, 1)

-- ContentTree._get_sortable_date_or_log_error: a missing or empty date
-- string logs a warning and yields the epoch default; a nonempty date
-- string is stripped and parsed, a parse failure being logged as an error
-- and also yielding the epoch default.
def getSortableDate (dateStr : Option String) : (Nat × Nat × Nat) × Option LogKind :=
  match dateStr with
  | none => (epochDate, some LogKind.warning)
  | some s =>
    if s = "" then (epochDate, some LogKind.warning)
    else
      match parseDateYMD (pyStrip s) with
      | some d => (d, none)
      | none => (epochDate, some LogKind.logError)

structure RssPage where
  htmlPath : String
  date : Option String
deriving DecidableEq, Repr

-- Dates compare lexicographically; with months and days below 100 this
-- numeric encoding realises the same order.
def dateKeyNum (d : Nat × Nat × Nat) : Nat := d.1 * 10000 + d.2.1 * 100 + d.2.2

def rssSortKey (p : RssPage) : Nat := dateKeyNum (getSortableDate p.date).1

def rssDescLe (a b : RssPage) : Bool := decide (rssSortKey b ≤ rssSortKey a)

-- generate_rss: pages sorted by parsed date, newest first (sorted with
-- reverse=True is a stable descending sort), then capped at
-- max_rss_entries = 20.
def sortedPagesForRss (pages : List RssPage) : List RssPage :=
  ordSort rssDescLe pages

def maxRssEntries : Nat := 20

def rssEntries (pages : List RssPage) : List RssPage :=
  (sortedPagesForRss pages).take maxRssEntries

/-! ### Render pass (PageUnit.render, PageUnit.copy_if_newer,
PageUnit.copy_media, ContentTree.dump_loop).  The filesystem is an
association list from destination paths to mtimes; the newest entry for a
path shadows older entries. -/

abbrev FS := List (String × Nat)

-- A file write or copy: record the new mtime for the path.
def updateFS (fs : FS) (k : String) (v : Nat) : FS := (k, v) :: fs

structure PageUnit where
  destFile : String
  contentMtime : Option Nat
  isVirtual : Bool
  srcIsDir : Bool
  tags : List String
  media : List (String × Nat)
deriving DecidableEq, Repr

-- PageUnit.copy_if_newer: copy when the destination is missing or strictly
-- older than the source; shutil.copy2 preserves the source mtime.
def copy_if_newer (fs : FS) (destFilePath : String) (srcMtime : Nat) : FS × List String :=
  match fs.lookup destFilePath with
  | some dm =>
    if dm < srcMtime then (updateFS fs destFilePath srcMtime, [destFilePath])
    else (fs, [])
  | none => (updateFS fs destFilePath srcMtime, [destFilePath])

-- The copy_if_newer calls performed by PageUnit.copy_media, one per media
-- file, each under its own newer-than test.  A media entry pairs the
-- destination path with the source mtime.
def copyMediaFiles (fs : FS) : List (String × Nat) → FS × List String
  | [] => (fs, [])
  | m :: rest =>
    let r1 := copy_if_newer fs m.1 m.2
    let r2 := copyMediaFiles r1.1 rest
    (r2.1, r1.2 ++ r2.2)

-- The media destinations a render of this page may write: none for
-- virtual pages or pages whose source path is not a directory.
def mediaDestsUsed (p : PageUnit) : List String :=
  if !p.isVirtual && p.srcIsDir then p.media.map Prod.fst else []

-- Every destination path a render of this page may write.
def writesOf (p : PageUnit) : List String := p.destFile :: mediaDestsUsed p

def pagesWrites (ps : List PageUnit) : List String := ps.flatMap writesOf

-- The writing part of PageUnit.render: media copy (only for non-virtual
-- pages whose source path is a directory), then the html file write, which
-- stamps the destination with the current time and appends it to the
-- modified list.
def renderBody (now : Nat) (fs : FS) (p : PageUnit) : FS × List String :=
  if !p.isVirtual && p.srcIsDir then
    (updateFS (copyMediaFiles fs p.media).1 p.destFile now,
      (copyMediaFiles fs p.media).2 ++ [p.destFile])
  else (updateFS fs p.destFile now, [p.destFile])

-- PageUnit.render: in incremental mode a page whose destination file
-- exists and whose content file is set is skipped when the content file is
-- not strictly newer than the destination file; every other case renders.
def render (incremental : Bool) (now : Nat) (fs : FS) (p : PageUnit) : FS × List String :=
  match p.contentMtime, fs.lookup p.destFile with
  | some sm, some dm =>
    if incremental && decide (sm ≤ dm) then (fs, []) else renderBody now fs p
  | some _, none => renderBody now fs p
  | none, _ => renderBody now fs p

-- The real-page loop of ContentTree.dump_loop: render every page, collect
-- each modified list, and record the tags of pages whose modified list is
-- nonempty (updated_tags).
def renderPages (incremental : Bool) (now : Nat) :
    FS → List PageUnit → FS × List (List String) × List String
  | fs, [] => (fs, [], [])
  | fs, p :: rest =>
    let r := render incremental now fs p
    let rr := renderPages incremental now r.1 rest
    (rr.1, r.2 :: rr.2.1, (if r.2.isEmpty then [] else p.tags) ++ rr.2.2)

structure TagPage where
  tagname : String
  page : PageUnit
deriving DecidableEq, Repr

def tagPagesWrites (tps : List TagPage) : List String := tps.flatMap (fun tp => writesOf tp.page)

-- The tag-page loop of ContentTree.dump_loop: in incremental mode a tag
-- page is rendered only when its tag is in updated_tags; a full build
-- renders all of them.
def renderTagPages (incremental : Bool) (now : Nat) (updatedTags : List String) :
    FS → List TagPage → FS × List (List String)
  | fs, [] => (fs, [])
  | fs, tp :: rest =>
    if incremental && !(updatedTags.contains tp.tagname) then
      let rr := renderTagPages incremental now updatedTags fs rest
      (rr.1, [] :: rr.2)
    else
      let r := render incremental now fs tp.page
      let rr := renderTagPages incremental now updatedTags r.1 rest
      (rr.1, r.2 :: rr.2)

structure Site where
  pages : List PageUnit
  tagPages : List TagPage
  topPage : Option PageUnit
deriving DecidableEq, Repr

structure DumpResult where
  fs : FS
  pageMods : List (List String)
  updatedTags : List String
  tagMods : List (List String)
  topMods : List String
deriving DecidableEq, Repr

-- ContentTree.dump_loop: real pages first, then tag pages, then the top
-- page, which is always rendered when present.
def dump_loop (incremental : Bool) (now : Nat) (fs : FS) (s : Site) : DumpResult :=
  let rp := renderPages incremental now fs s.pages
  let rt := renderTagPages incremental now rp.2.2 rp.1 s.tagPages
  match s.topPage with
  | none => ⟨rt.1, rp.2.1, rp.2.2, rt.2, []⟩
  | some tp =>
    let rtop := render incremental now rt.1 tp
    ⟨rtop.1, rp.2.1, rp.2.2, rt.2, rtop.2⟩

/-! ### Concrete instances used by counterexamples and witnesses -/

def exTopPage : PageUnit :=
  { destFile := "/www/index.html", contentMtime := none, isVirtual := false,
    srcIsDir := false, tags := [], media := [] }

def exRealPage : PageUnit :=
  { destFile := "/www/posts/index.html", contentMtime := some 5, isVirtual := false,
    srcIsDir := true, tags := ["t"], media := [] }

def exTagPage : TagPage :=
  { tagname := "t",
    page := { destFile := "/www/tags/t/index.html", contentMtime := none, isVirtual := false,
              srcIsDir := false, tags := [], media := [] } }

def exSite : Site := { pages := [exRealPage], tagPages := [exTagPage], topPage := some exTopPage }

def c3Page : PageUnit :=
  { destFile := "/www/p/index.html", contentMtime := some 5, isVirtual := false,
    srcIsDir := true, tags := [], media := [("/www/p/pic.jpg", 20)] }

def c3FS : FS := [("/www/p/index.html", 10), ("/www/p/pic.jpg", 3)]

def c5PageDict : List (String × Nat) := [("/r/foo/", 1), ("/r/foo/bar/", 2)]

def c10PageDict : List (String × Nat) := [("/r/p/", 1), ("/r/p/foo/", 2)]

/-! ### Generic lemmas about the stable sort -/

theorem mem_ordInsert {α : Type} (le : α → α → Bool) (x : α) (l : List α) (z : α) :
    z ∈ ordInsert le x l ↔ z = x ∨ z ∈ l := by
  induction l with
  | nil => simp [ordInsert]
  | cons y ys ih =>
    by_cases h : le x y = true
    · simp only [ordInsert, h, if_true, List.mem_cons]
    · simp only [ordInsert, h, if_false, Bool.false_eq_true, ite_false, List.mem_cons, ih]
      tauto

theorem pairwise_ordInsert {α : Type} (le : α → α → Bool)
    (htr : ∀ a b c, le a b = true → le b c = true → le a c = true)
    (hto : ∀ a b, le a b = false → le b a = true)
    (x : α) (l : List α) (hl : l.Pairwise (fun a b => le a b = true)) :
    (ordInsert le x l).Pairwise (fun a b => le a b = true) := by
  induction l with
  | nil => simp [ordInsert]
  | cons y ys ih =>
    rcases List.pairwise_cons.mp hl with ⟨hy, hys⟩
    by_cases h : le x y = true
    · simp only [ordInsert, h, if_true]
      refine List.pairwise_cons.mpr ⟨?_, hl⟩
      intro z hz
      rcases List.mem_cons.mp hz with rfl | hz2
      · exact h
      · exact htr x y z h (hy z hz2)
    · have hf : le x y = false := by revert h; cases le x y <;> simp
      have hyx : le y x = true := hto x y hf
      simp only [ordInsert, hf, Bool.false_eq_true, ite_false]
      refine List.pairwise_cons.mpr ⟨?_, ih hys⟩
      intro z hz
      rcases (mem_ordInsert le x ys z).mp hz with rfl | hz2
      · exact hyx
      · exact hy z hz2

theorem pairwise_ordSort {α : Type} (le : α → α → Bool)
    (htr : ∀ a b c, le a b = true → le b c = true → le a c = true)
    (hto : ∀ a b, le a b = false → le b a = true)
    (l : List α) : (ordSort le l).Pairwise (fun a b => le a b = true) := by
  induction l with
  | nil => simp [ordSort]
  | cons x xs ih => exact pairwise_ordInsert le htr hto x _ ih

theorem ordInsert_perm {α : Type} (le : α → α → Bool) (x : α) (l : List α) :
    (ordInsert le x l).Perm (x :: l) := by
  induction l with
  | nil => simp [ordInsert]
  | cons y ys ih =>
    by_cases h : le x y = true
    · simp [ordInsert, h]
    · have hf : le x y = false := by revert h; cases le x y <;> simp
      simp only [ordInsert, hf, Bool.false_eq_true, ite_false]
      exact (ih.cons y).trans (List.Perm.swap x y ys)

theorem ordSort_perm {α : Type} (le : α → α → Bool) (l : List α) :
    (ordSort le l).Perm l := by
  induction l with
  | nil => simp [ordSort]
  | cons x xs ih => exact (ordInsert_perm le x (ordSort le xs)).trans (ih.cons x)

/-! ### Lemmas about the string order -/

theorem lexLe_total (as bs : List Char) : lexLe as bs = false → lexLe bs as = true := by
  induction as generalizing bs with
  | nil => simp [lexLe]
  | cons a as ih =>
    cases bs with
    | nil => intro _; simp [lexLe]
    | cons b bs =>
      simp only [lexLe]
      by_cases hab : a < b
      · simp [hab]
      · by_cases hba : b < a
        · simp [hab, hba]
        · simp only [hab, hba, ite_false, if_false]
          exact ih bs

theorem lexLe_trans (as bs cs : List Char) :
    lexLe as bs = true → lexLe bs cs = true → lexLe as cs = true := by
  induction as generalizing bs cs with
  | nil => intro _ _; simp [lexLe]
  | cons a as ih =>
    cases bs with
    | nil => intro h; simp [lexLe] at h
    | cons b bs =>
      cases cs with
      | nil => intro _ h2; simp [lexLe] at h2
      | cons c cs =>
        simp only [lexLe]
        intro h1 h2
        by_cases hab : a < b
        · by_cases hbc : b < c
          · simp [lt_trans hab hbc]
          · by_cases hcb : c < b
            · simp [hbc, hcb] at h2
            · have hbceq : b = c := le_antisymm (not_lt.mp hcb) (not_lt.mp hbc)
              simp [hbceq ▸ hab]
        · by_cases hba : b < a
          · simp [hab, hba] at h1
          · have habe : a = b := le_antisymm (not_lt.mp hba) (not_lt.mp hab)
            by_cases hbc : b < c
            · simp [habe ▸ hbc]
            · by_cases hcb : c < b
              · simp [hbc, hcb] at h2
              · have hbceq : b = c := le_antisymm (not_lt.mp hcb) (not_lt.mp hbc)
                simp only [hab, hba, ite_false, if_false] at h1
                simp only [hbc, hcb, ite_false, if_false] at h2
                have hac : ¬ a < c := hbceq ▸ habe ▸ lt_irrefl a
                have hca : ¬ c < a := hbceq ▸ habe ▸ lt_irrefl a
                simp only [hac, hca, ite_false, if_false]
                exact ih bs cs h1 h2

theorem strLe_total (s t : String) : strLe s t = false → strLe t s = true :=
  lexLe_total s.toList t.toList

theorem strLe_trans (s t u : String) :
    strLe s t = true → strLe t u = true → strLe s u = true :=
  lexLe_trans s.toList t.toList u.toList

/-! ### Lemmas about filesystem and dictionary lookups -/

theorem lookup_updateFS_self (fs : FS) (k : String) (v : Nat) :
    (updateFS fs k v).lookup k = some v := by
  simp [updateFS, List.lookup]

theorem lookup_updateFS_ne (fs : FS) (k : String) (v : Nat) (q : String) (h : q ≠ k) :
    (updateFS fs k v).lookup q = fs.lookup q := by
  simp [updateFS, List.lookup, beq_eq_false_iff_ne.mpr h]

theorem lookup_dictSet_self (d : List (String × String)) (k v : String) :
    (dictSet d k v).lookup k = some v := by
  induction d with
  | nil => simp [dictSet, List.lookup]
  | cons kv rest ih =>
    by_cases h : kv.1 = k
    · simp [dictSet, h, List.lookup]
    · have hne : (k == kv.1) = false := beq_eq_false_iff_ne.mpr (fun he => h he.symm)
      simp [dictSet, h, List.lookup, hne, ih]

theorem lookup_dictSet_ne (d : List (String × String)) (k v q : String) (h : q ≠ k) :
    (dictSet d k v).lookup q = d.lookup q := by
  induction d with
  | nil => simp [dictSet, List.lookup, beq_eq_false_iff_ne.mpr h]
  | cons kv rest ih =>
    by_cases hk : kv.1 = k
    · subst hk
      simp [dictSet, List.lookup, beq_eq_false_iff_ne.mpr h]
    · simp [dictSet, hk, List.lookup, ih]

/-! ### Lemmas about the render pass -/

theorem lookup_copy_if_newer_ne (fs : FS) (dest : String) (m : Nat) (q : String)
    (h : q ≠ dest) :
    (copy_if_newer fs dest m).1.lookup q = fs.lookup q := by
  unfold copy_if_newer
  cases hl : fs.lookup dest with
  | none => simp [lookup_updateFS_ne _ _ _ _ h]
  | some dm =>
    by_cases h2 : dm < m <;> simp [h2, lookup_updateFS_ne _ _ _ _ h]

theorem lookup_copyMediaFiles_ne (ml : List (String × Nat)) (fs : FS) (q : String)
    (h : q ∉ ml.map Prod.fst) :
    (copyMediaFiles fs ml).1.lookup q = fs.lookup q := by
  induction ml generalizing fs with
  | nil => rfl
  | cons m rest ih =>
    simp only [List.map_cons, List.mem_cons, not_or] at h
    simp only [copyMediaFiles]
    rw [ih _ h.2, lookup_copy_if_newer_ne _ _ _ _ h.1]

theorem lookup_renderBody_self (now : Nat) (fs : FS) (p : PageUnit) :
    (renderBody now fs p).1.lookup p.destFile = some now := by
  unfold renderBody
  by_cases hc : (!p.isVirtual && p.srcIsDir) = true <;>
    simp [hc, lookup_updateFS_self]

theorem lookup_renderBody_ne (now : Nat) (fs : FS) (p : PageUnit) (q : String)
    (h : q ∉ writesOf p) :
    (renderBody now fs p).1.lookup q = fs.lookup q := by
  simp only [writesOf, List.mem_cons, not_or] at h
  unfold renderBody
  by_cases hc : (!p.isVirtual && p.srcIsDir) = true
  · have hm : q ∉ p.media.map Prod.fst := by
      have : mediaDestsUsed p = p.media.map Prod.fst := by simp [mediaDestsUsed, hc]
      exact this ▸ h.2
    simp only [hc, if_true]
    rw [lookup_updateFS_ne _ _ _ _ h.1, lookup_copyMediaFiles_ne _ _ _ hm]
  · simp only [hc, Bool.false_eq_true, if_false]
    rw [lookup_updateFS_ne _ _ _ _ h.1]

theorem render_full (now : Nat) (fs : FS) (p : PageUnit) :
    render false now fs p = renderBody now fs p := by
  unfold render
  rcases p.contentMtime with _ | sm <;> rcases fs.lookup p.destFile with _ | dm <;> simp

theorem lookup_render_ne (incr : Bool) (now : Nat) (fs : FS) (p : PageUnit) (q : String)
    (h : q ∉ writesOf p) :
    (render incr now fs p).1.lookup q = fs.lookup q := by
  unfold render
  rcases p.contentMtime with _ | sm
  · exact lookup_renderBody_ne now fs p q h
  · rcases fs.lookup p.destFile with _ | dm
    · exact lookup_renderBody_ne now fs p q h
    · by_cases hi : (incr && decide (sm ≤ dm)) = true
      · simp [hi]
      · simp only [hi, Bool.false_eq_true, if_false]
        exact lookup_renderBody_ne now fs p q h

theorem lookup_renderPages_ne (incr : Bool) (now : Nat) (ps : List PageUnit) (fs : FS)
    (q : String) (h : q ∉ pagesWrites ps) :
    (renderPages incr now fs ps).1.lookup q = fs.lookup q := by
  induction ps generalizing fs with
  | nil => rfl
  | cons p rest ih =>
    have h1 : q ∉ writesOf p := by
      intro hq
      exact h (List.mem_flatMap.mpr ⟨p, List.mem_cons_self p rest, hq⟩)
    have h2 : q ∉ pagesWrites rest := by
      intro hq
      rcases List.mem_flatMap.mp hq with ⟨b, hb, hw⟩
      exact h (List.mem_flatMap.mpr ⟨b, List.mem_cons_of_mem p hb, hw⟩)
    simp only [renderPages]
    rw [ih _ h2, lookup_render_ne _ _ _ _ _ h1]

theorem lookup_renderTagPages_ne (incr : Bool) (now : Nat) (ut : List String)
    (tps : List TagPage) (fs : FS) (q : String) (h : q ∉ tagPagesWrites tps) :
    (renderTagPages incr now ut fs tps).1.lookup q = fs.lookup q := by
  induction tps generalizing fs with
  | nil => rfl
  | cons tp rest ih =>
    have h1 : q ∉ writesOf tp.page := by
      intro hq
      exact h (List.mem_flatMap.mpr ⟨tp, List.mem_cons_self tp rest, hq⟩)
    have h2 : q ∉ tagPagesWrites rest := by
      intro hq
      rcases List.mem_flatMap.mp hq with ⟨b, hb, hw⟩
      exact h (List.mem_flatMap.mpr ⟨b, List.mem_cons_of_mem tp hb, hw⟩)
    by_cases hskip : (incr && !(ut.contains tp.tagname)) = true
    · simp only [renderTagPages, hskip, if_true]
      exact ih _ h2
    · simp only [renderTagPages, hskip, Bool.false_eq_true, if_false]
      rw [ih _ h2, lookup_render_ne _ _ _ _ _ h1]

theorem renderPages_full_fresh (now : Nat) (ps : List PageUnit) (fs : FS)
    (hpair : ps.Pairwise (fun a b => a.destFile ∉ writesOf b)) :
    ∀ p ∈ ps, (renderPages false now fs ps).1.lookup p.destFile = some now := by
  induction ps generalizing fs with
  | nil => intro p hp; cases hp
  | cons p0 rest ih =>
    rcases List.pairwise_cons.mp hpair with ⟨hhead, htail⟩
    intro p hp
    rcases List.mem_cons.mp hp with rfl | hmem
    · have hnw : p.destFile ∉ pagesWrites rest := by
        intro hq
        rcases List.mem_flatMap.mp hq with ⟨b, hb, hw⟩
        exact hhead b hb hw
      simp only [renderPages]
      rw [lookup_renderPages_ne _ _ _ _ _ hnw, render_full, lookup_renderBody_self]
    · exact ih _ htail p hmem

/-! ### Claim C4 -/

/-- C4: for the directory 1.post holding the two content files a.md and
b.md, slurp_walk calls add_page once per matching file, so two PageUnits
are created for the directory (not exactly one), and the page_dict
registration performed by each call overwrites the previous one, so the
content file that survives in the page index is b.md, the
lexicographically last match, not the first.  This contradicts both the
claim and the log message of the source, which says the first sorted file
is used. -/
theorem c4_multiple_content_files_last_wins :
    slurpDirPages ".md" "1.post" ["b.md", "a.md"] = ["a.md", "b.md"] ∧
    (slurpDirPages ".md" "1.post" ["b.md", "a.md"]).length = 2 ∧
    (slurpDirPages ".md" "1.post" ["b.md", "a.md"]).getLast? = some "b.md" := by
  decide

/-! ### Claim C2 -/

/-- C2: in incremental mode a real page with a content file is rendered and
written exactly when the destination file is missing or strictly older
than the content file; in the remaining case the render is skipped and
both the filesystem and the modified list are unchanged. -/
theorem c2_incremental_render (fs : FS) (p : PageUnit) (now sm : Nat)
    (hp : p.contentMtime = some sm) :
    (p.destFile ∈ (render true now fs p).2 ↔
      (fs.lookup p.destFile = none ∨ ∃ dm, fs.lookup p.destFile = some dm ∧ dm < sm)) ∧
    ((∃ dm, fs.lookup p.destFile = some dm ∧ sm ≤ dm) → render true now fs p = (fs, [])) ∧
    ((fs.lookup p.destFile = none ∨ ∃ dm, fs.lookup p.destFile = some dm ∧ dm < sm) →
      (render true now fs p).1.lookup p.destFile = some now) := by
  have hbody2 : p.destFile ∈ (renderBody now fs p).2 := by
    unfold renderBody
    by_cases hc : (!p.isVirtual && p.srcIsDir) = true <;> simp [hc]
  refine ⟨?_, ?_, ?_⟩
  · constructor
    · intro hmem
      rcases hl : fs.lookup p.destFile with _ | dm
      · exact Or.inl rfl
      · refine Or.inr ⟨dm, rfl, ?_⟩
        by_contra hge
        have hsk : render true now fs p = (fs, []) := by
          simp [render, hp, hl, Nat.le_of_not_lt hge]
        rw [hsk] at hmem
        cases hmem
    · intro hcond
      rcases hcond with hl | ⟨dm, hl, hlt⟩
      · have : render true now fs p = renderBody now fs p := by
          simp [render, hp, hl]
        rw [this]; exact hbody2
      · have : render true now fs p = renderBody now fs p := by
          simp [render, hp, hl, Nat.not_le_of_lt hlt]
        rw [this]; exact hbody2
  · rintro ⟨dm, hl, hle⟩
    simp [render, hp, hl, hle]
  · intro hcond
    rcases hcond with hl | ⟨dm, hl, hlt⟩
    · have : render true now fs p = renderBody now fs p := by
        simp [render, hp, hl]
      rw [this]; exact lookup_renderBody_self now fs p
    · have : render true now fs p = renderBody now fs p := by
        simp [render, hp, hl, Nat.not_le_of_lt hlt]
      rw [this]; exact lookup_renderBody_self now fs p

/-- C2 witness: the theorem applied to concrete inputs: a stale page whose
skip branch leaves the state untouched, and a missing destination that is
rendered and stamped with the current time. -/
theorem c2_incremental_render_witness :
    render true 20 [("/www/posts/index.html", 10)] exRealPage =
      ([("/www/posts/index.html", 10)], []) ∧
    (render true 20 [] exRealPage).1.lookup exRealPage.destFile = some 20 :=
  ⟨(c2_incremental_render [("/www/posts/index.html", 10)] exRealPage 20 5 (by decide)).2.1
      ⟨10, by decide, by decide⟩,
   (c2_incremental_render [] exRealPage 20 5 (by decide)).2.2 (Or.inl (by decide))⟩

/-! ### Claim C3 -/

/-- C3 counterexample: a page whose content file (mtime 5) is not newer
than its rendered output (mtime 10) but whose media file source (mtime 20)
is strictly newer than its destination copy (mtime 3).  The claim says the
media file is still copied; the incremental render instead returns before
reaching the media loop, so nothing is copied and nothing is modified. -/
theorem c3_counterexample :
    (c3Page.media = [("/www/p/pic.jpg", 20)] ∧ c3FS.lookup "/www/p/pic.jpg" = some 3 ∧
      c3Page.contentMtime = some 5 ∧ c3FS.lookup c3Page.destFile = some 10) ∧
    render true 50 c3FS c3Page = (c3FS, []) := by
  decide

/-- C3 (amended): each media file is copied exactly when its own
destination copy is missing or strictly older than its source, with copy2
stamping the destination with the source mtime — but only when the page
render proceeds at all; when the page is skipped in incremental mode
(destination present and content not newer) no media file is examined or
copied. -/
theorem c3_media_copy (fs : FS) (dest : String) (srcM now sm dm : Nat) (p : PageUnit) :
    ((fs.lookup dest = none ∨ (∃ d0, fs.lookup dest = some d0 ∧ d0 < srcM)) →
      copy_if_newer fs dest srcM = (updateFS fs dest srcM, [dest])) ∧
    ((∃ d0, fs.lookup dest = some d0 ∧ srcM ≤ d0) →
      copy_if_newer fs dest srcM = (fs, [])) ∧
    (p.contentMtime = some sm → fs.lookup p.destFile = some dm → sm ≤ dm →
      render true now fs p = (fs, [])) := by
  refine ⟨?_, ?_, ?_⟩
  · intro hcond
    rcases hcond with hl | ⟨d0, hl, hlt⟩
    · simp [copy_if_newer, hl]
    · simp [copy_if_newer, hl, hlt]
  · rintro ⟨d0, hl, hle⟩
    simp [copy_if_newer, hl, Nat.not_lt_of_le hle]
  · intro h1 h2 h3
    simp [render, h1, h2, h3]

/-- C3 witness: the amended theorem applied at concrete inputs: a missing
media destination is copied with the source mtime, a fresh media
destination is skipped, and the stale page of the counterexample setup is
skipped without touching its media. -/
theorem c3_media_copy_witness :
    copy_if_newer c3FS "/www/p/new.jpg" 20 =
      (updateFS c3FS "/www/p/new.jpg" 20, ["/www/p/new.jpg"]) ∧
    copy_if_newer c3FS "/www/p/index.html" 7 = (c3FS, []) ∧
    render true 50 c3FS c3Page = (c3FS, []) :=
  ⟨(c3_media_copy c3FS "/www/p/new.jpg" 20 50 5 10 c3Page).1 (Or.inl (by decide)),
   (c3_media_copy c3FS "/www/p/index.html" 7 50 5 10 c3Page).2.1 ⟨10, by decide, by decide⟩,
   (c3_media_copy c3FS "/www/p/new.jpg" 20 50 5 10 c3Page).2.2 (by decide) (by decide) (by decide)⟩

/-! ### Lemmas for the link pass -/

theorem foldl_fullKey_all_empty (slugs : List String) (base : String)
    (h : ∀ s ∈ slugs, s = "") :
    slugs.foldl (fun b s => if s = "" then b else b ++ s ++ "/") base = base := by
  induction slugs generalizing base with
  | nil => rfl
  | cons x rest ih =>
    have hx : x = "" := h x (List.mem_cons_self x rest)
    simp only [List.foldl_cons, hx, if_pos rfl]
    exact ih base (fun s hs => h s (List.mem_cons_of_mem x hs))

theorem parentsLoop_all_empty (pageDict : List (String × Nat)) (slugs : List String)
    (base : String) (h : ∀ s ∈ slugs, s = "") :
    parentsLoop pageDict base slugs = [] := by
  induction slugs generalizing base with
  | nil => rfl
  | cons x rest ih =>
    have hx : x = "" := h x (List.mem_cons_self x rest)
    simp only [parentsLoop, hx, if_pos rfl]
    exact ih base (fun s hs => h s (List.mem_cons_of_mem x hs))

theorem getLast?_cons_ne_nil {α : Type} (a : α) (l : List α) (h : l ≠ []) :
    (a :: l).getLast? = l.getLast? := by
  cases l with
  | nil => exact absurd rfl h
  | cons b bs => exact List.getLast?_cons_cons

theorem parentsLoop_getLast (pageDict : List (String × Nat)) (selfId : Nat) :
    ∀ (slugs : List String) (base : String),
      (∃ s ∈ slugs, s ≠ "") →
      pageDict.lookup
        (slugs.foldl (fun b s => if s = "" then b else b ++ s ++ "/") base) = some selfId →
      (parentsLoop pageDict base slugs).getLast? = some selfId := by
  intro slugs
  induction slugs with
  | nil => rintro base ⟨s, hs, _⟩; cases hs
  | cons x rest ih =>
    intro base hex hreg
    by_cases hx : x = ""
    · subst hx
      simp only [parentsLoop, if_pos rfl]
      simp only [List.foldl_cons, if_pos rfl] at hreg
      rcases hex with ⟨s, hs, hsne⟩
      rcases List.mem_cons.mp hs with rfl | hmem
      · exact absurd rfl hsne
      · exact ih base ⟨s, hmem, hsne⟩ hreg
    · simp only [parentsLoop, hx, if_false]
      simp only [List.foldl_cons, hx, if_false] at hreg
      by_cases hrest : ∃ s ∈ rest, s ≠ ""
      · have htail := ih (base ++ x ++ "/") hrest hreg
        have htne : parentsLoop pageDict (base ++ x ++ "/") rest ≠ [] := by
          intro hnil
          rw [hnil] at htail
          cases htail
        cases hlk : pageDict.lookup (base ++ x ++ "/") with
        | none => exact htail
        | some pid => rw [getLast?_cons_ne_nil pid _ htne]; exact htail
      · have hall : ∀ s ∈ rest, s = "" := by
          intro s hs
          by_contra hne
          exact hrest ⟨s, hs, hne⟩
        rw [foldl_fullKey_all_empty rest _ hall] at hreg
        rw [hreg, parentsLoop_all_empty pageDict rest _ hall]
        rfl

/-! ### Claim C5 -/

/-- C5 counterexample: the breadcrumb loop of populate looks up every
prefix of the page own html path, including the full path, and the page is
registered in page_dict under exactly that key, so page 2 at /r/foo/bar/
appears in its own parents list, contradicting the claim that parents
holds only other PageUnits. -/
theorem c5_counterexample :
    pageHtmlPath "/r" ["1.foo", "2.bar"] = "/r/foo/bar/" ∧
    c5PageDict.lookup "/r/foo/bar/" = some 2 ∧
    parentsOf c5PageDict "/r" ["foo", "bar"] = [1, 2] := by
  decide

/-- C5 (amended): depth equals the length of the parents list, but the
parents list is inclusive: whenever the page itself is registered in
page_dict under the final prefix key of the breadcrumb loop (its own html
path), the page is the last element of its own parents list — so parents
holds the ancestor chain plus the page itself, not only proper
ancestors. -/
theorem c5_parents_include_self (pageDict : List (String × Nat)) (root : String)
    (slugs : List String) (selfId : Nat)
    (hreg : pageDict.lookup (fullKey root slugs) = some selfId)
    (hs : ∃ s ∈ slugs, s ≠ "") :
    (parentsOf pageDict root slugs).getLast? = some selfId ∧
    selfId ∈ parentsOf pageDict root slugs ∧
    levelOf pageDict root slugs = (parentsOf pageDict root slugs).length := by
  have hlast : (parentsOf pageDict root slugs).getLast? = some selfId :=
    parentsLoop_getLast pageDict selfId slugs (ensureSlash root) hs hreg
  refine ⟨hlast, ?_, rfl⟩
  cases hp : parentsOf pageDict root slugs with
  | nil => rw [hp] at hlast; cases hlast
  | cons a l =>
    rw [hp] at hlast
    have := List.getLast?_eq_getLast (a :: l) (by simp)
    rw [this] at hlast
    have hmem := @List.getLast_mem _ (a :: l) (by simp)
    rw [Option.some.inj hlast] at hmem
    exact hp ▸ hmem

/-- C5 witness: the amended theorem applied to the concrete two-page
dictionary: the page at /r/foo/bar/ closes its own parents list and its
level counts itself. -/
theorem c5_parents_include_self_witness :
    (parentsOf c5PageDict "/r" ["foo", "bar"]).getLast? = some 2 ∧
    2 ∈ parentsOf c5PageDict "/r" ["foo", "bar"] ∧
    levelOf c5PageDict "/r" ["foo", "bar"] = (parentsOf c5PageDict "/r" ["foo", "bar"]).length :=
  c5_parents_include_self c5PageDict "/r" ["foo", "bar"] 2 (by decide)
    ⟨"foo", by decide, by decide⟩

/-! ### Lemmas for claim C10 -/

theorem lookup_pagesDict (pages : List LinkPage) (k : String) (v : Nat)
    (h : (pagesDict pages).lookup k = some v) :
    ∃ p ∈ pages, p.htmlPath = k ∧ p.pid = v := by
  induction pages with
  | nil => cases h
  | cons p rest ih =>
    simp only [pagesDict, List.map_cons, List.lookup] at h
    cases hbe : (k == p.htmlPath) with
    | true =>
      rw [hbe] at h
      exact ⟨p, List.mem_cons_self p rest,
        (beq_iff_eq.mp hbe).symm, Option.some.inj h⟩
    | false =>
      rw [hbe] at h
      rcases ih h with ⟨q, hq, h1, h2⟩
      exact ⟨q, List.mem_cons_of_mem p hq, h1, h2⟩

theorem mem_childSlugs (subdirs : List String) (slug : String) :
    slug ∈ childSlugs subdirs ↔
      ∃ d ∈ subdirs, 0 < (num_slug d).1 ∧ (num_slug d).2 = slug := by
  simp only [childSlugs, List.mem_filterMap]
  constructor
  · rintro ⟨d, hd, hif⟩
    by_cases h : 0 < (num_slug d).1
    · rw [if_pos h] at hif
      exact ⟨d, hd, h, Option.some.inj hif⟩
    · rw [if_neg h] at hif
      cases hif
  · rintro ⟨d, hd, h, hs⟩
    exact ⟨d, hd, by rw [if_pos h, hs]⟩

/-! ### Claim C10 -/

/-- C10 counterexample: the directory 0.foo is admitted as page 2 with html
path /r/p/foo/ (the walk only drops strictly negative indices), yet it DOES
appear in the children list of its parent /r/p/, because the sibling
directory 3.foo — a positively numbered subdirectory that is not itself a
page — shares the slug foo and its child lookup resolves to page 2.  This
refutes the claim that such a page never appears in any children list. -/
theorem c10_counterexample :
    num_slug "0.foo" = (0, "foo") ∧
    ¬ ((num_slug "0.foo").1 < 0) ∧
    pageHtmlPath "/r" ["1.p"] = "/r/p/" ∧
    pageHtmlPath "/r" ["1.p", "0.foo"] = "/r/p/foo/" ∧
    c10PageDict.lookup (childHtmlPath "/r/p/" "foo") = some 2 ∧
    2 ∈ childrenOf c10PageDict "/r/p/" ["0.foo", "3.foo"] := by
  decide

/-- C10 (amended): a zero-numbered directory passes the add_page guard
(which drops only strictly negative indices) and so enters pages and the
page index; child resolution never admits it through its own subdirectory
entry, since only strictly positive indices produce child slugs; and it
appears in no children list at all provided no positively numbered
subdirectory of any page resolves to its html path (in particular, no
positively numbered sibling shares its slug). -/
theorem c10_zero_index :
    (∀ (ext d : String) (files : List String), (num_slug d).1 = 0 →
        slurpDirPages ext d files = dirContentFiles ext files) ∧
    (∀ (d : String) (rest : List String), (num_slug d).1 = 0 →
        childSlugs (d :: rest) = childSlugs rest) ∧
    (∀ (pages : List LinkPage) (z : LinkPage),
        (∀ p ∈ pages, p.pid = z.pid → p.htmlPath = z.htmlPath) →
        (∀ p ∈ pages, ∀ d ∈ p.subdirs, 0 < (num_slug d).1 →
            childHtmlPath p.htmlPath (num_slug d).2 ≠ z.htmlPath) →
        ∀ p ∈ pages, z.pid ∉ childrenOf (pagesDict pages) p.htmlPath p.subdirs) := by
  refine ⟨?_, ?_, ?_⟩
  · intro ext d files h
    simp [slurpDirPages, h]
  · intro d rest h
    simp [childSlugs, h]
  · intro pages z hid hnosib p hp hmem
    simp only [childrenOf, List.mem_filterMap] at hmem
    rcases hmem with ⟨slug, hslug, hlk⟩
    rcases lookup_pagesDict pages _ _ hlk with ⟨q, hq, hqpath, hqpid⟩
    have hqz : q.htmlPath = z.htmlPath := hid q hq hqpid
    rcases (mem_childSlugs p.subdirs slug).mp hslug with ⟨d, hd, hpos, hds⟩
    exact hnosib p hp d hd hpos (by rw [hds]; exact hqpath.symm.trans hqz)

/-- C10 witness: the amended theorem applied at concrete inputs: a
zero-numbered directory is walked like any other, contributes no child
slug, and a lone page whose only subdirectory is zero-numbered has no
children containing it. -/
theorem c10_zero_index_witness :
    slurpDirPages ".md" "0.extras" ["x.md"] = dirContentFiles ".md" ["x.md"] ∧
    childSlugs ["0.extras", "2.kid"] = childSlugs ["2.kid"] ∧
    3 ∉ childrenOf (pagesDict [⟨3, "/r/a/", ["0.extras"]⟩]) "/r/a/" ["0.extras"] :=
  ⟨c10_zero_index.1 ".md" "0.extras" ["x.md"] (by decide),
   c10_zero_index.2.1 "0.extras" ["2.kid"] (by decide),
   c10_zero_index.2.2 [⟨3, "/r/a/", ["0.extras"]⟩] ⟨3, "/r/a/", ["0.extras"]⟩
     (by decide) (by decide) ⟨3, "/r/a/", ["0.extras"]⟩ (by decide)⟩

/-! ### Claim C8 -/

/-- C8: after munge_loop the tag index is sorted alphabetically by tag name
and every tag list is sorted ascending by htmlPath, the natural PageUnit
order. -/
theorem c8_tag_index_sorted (pages : List TagRef) :
    ((mungeTagIndex pages).Pairwise (fun a b => strLe a.1 b.1 = true)) ∧
    (∀ kv ∈ mungeTagIndex pages,
      kv.2.Pairwise (fun a b => strLe a.htmlPath b.htmlPath = true)) := by
  constructor
  · have h := pairwise_ordSort tagLe
      (fun a b c hab hbc => strLe_trans a.1 b.1 c.1 hab hbc)
      (fun a b hab => strLe_total a.1 b.1 hab) (collectTags pages)
    unfold mungeTagIndex
    rw [List.pairwise_map]
    exact h
  · intro kv hkv
    unfold mungeTagIndex at hkv
    rcases List.mem_map.mp hkv with ⟨kv0, _, rfl⟩
    exact pairwise_ordSort pageRefLe
      (fun a b c hab hbc => strLe_trans a.htmlPath b.htmlPath c.htmlPath hab hbc)
      (fun a b hab => strLe_total a.htmlPath b.htmlPath hab) kv0.2

/-- C8 witness: the theorem applied to two pages sharing a tag, given in
reverse path order; the tag list comes out path sorted. -/
theorem c8_tag_index_sorted_witness :
    ((mungeTagIndex [⟨"/b/", ["t"]⟩, ⟨"/a/", ["t"]⟩]).Pairwise
      (fun a b => strLe a.1 b.1 = true)) ∧
    (("t", [(⟨"/a/", ["t"]⟩ : TagRef), ⟨"/b/", ["t"]⟩]) : String × List TagRef).2.Pairwise
      (fun a b => strLe a.htmlPath b.htmlPath = true) :=
  ⟨(c8_tag_index_sorted [⟨"/b/", ["t"]⟩, ⟨"/a/", ["t"]⟩]).1,
   (c8_tag_index_sorted [⟨"/b/", ["t"]⟩, ⟨"/a/", ["t"]⟩]).2
     ("t", [⟨"/a/", ["t"]⟩, ⟨"/b/", ["t"]⟩]) (by decide)⟩

/-! ### Claim C9 -/

/-- C9: the rss entry list is sorted by parsed publication date descending
(newest first) over a stable descending sort of all pages, capped at the 20
most recent; a nonempty date string that fails to parse is logged as an
error and given the epoch default date 1970-01-01, and every step is a
total function, so feed generation completes. -/
theorem c9_rss (pages : List RssPage) (s : String)
    (hne : s ≠ "") (hbad : parseDateYMD (pyStrip s) = none) :
    ((rssEntries pages).Pairwise (fun a b => rssSortKey b ≤ rssSortKey a)) ∧
    (rssEntries pages).length ≤ maxRssEntries ∧
    (sortedPagesForRss pages).Perm pages ∧
    rssEntries pages = (sortedPagesForRss pages).take maxRssEntries ∧
    getSortableDate (some s) = (epochDate, some LogKind.logError) := by
  refine ⟨?_, ?_, ordSort_perm _ _, rfl, ?_⟩
  · have h := pairwise_ordSort rssDescLe
      (fun a b c hab hbc => by
        rw [rssDescLe, decide_eq_true_eq] at hab hbc ⊢
        exact le_trans hbc hab)
      (fun a b hab => by
        rw [rssDescLe, decide_eq_false_iff_not] at hab
        rw [rssDescLe, decide_eq_true_eq]
        exact le_of_lt (lt_of_not_le hab))
      pages
    have h2 : (sortedPagesForRss pages).Pairwise
        (fun a b => rssSortKey b ≤ rssSortKey a) :=
      h.imp (fun hab => by rwa [rssDescLe, decide_eq_true_eq] at hab)
    exact List.Pairwise.sublist (List.take_sublist _ _) h2
  · unfold rssEntries
    rw [List.length_take]
    exact min_le_left _ _
  · simp [getSortableDate, hne, hbad]

/-- C9 witness: the theorem applied to three concrete pages, one of them
with the unparseable date string, which is given the epoch default while
the feed still sorts and caps. -/
theorem c9_rss_witness :
    ((rssEntries [⟨"/a/", some "2024-01-01"⟩, ⟨"/b/", some "2024-03-01"⟩,
        ⟨"/c/", some "not-a-date"⟩]).Pairwise
      (fun a b => rssSortKey b ≤ rssSortKey a)) ∧
    (rssEntries [⟨"/a/", some "2024-01-01"⟩, ⟨"/b/", some "2024-03-01"⟩,
        ⟨"/c/", some "not-a-date"⟩]).length ≤ maxRssEntries ∧
    (sortedPagesForRss [⟨"/a/", some "2024-01-01"⟩, ⟨"/b/", some "2024-03-01"⟩,
        ⟨"/c/", some "not-a-date"⟩]).Perm
      [⟨"/a/", some "2024-01-01"⟩, ⟨"/b/", some "2024-03-01"⟩,
        ⟨"/c/", some "not-a-date"⟩] ∧
    rssEntries [⟨"/a/", some "2024-01-01"⟩, ⟨"/b/", some "2024-03-01"⟩,
        ⟨"/c/", some "not-a-date"⟩] =
      (sortedPagesForRss [⟨"/a/", some "2024-01-01"⟩, ⟨"/b/", some "2024-03-01"⟩,
        ⟨"/c/", some "not-a-date"⟩]).take maxRssEntries ∧
    getSortableDate (some "not-a-date") = (epochDate, some LogKind.logError) :=
  c9_rss [⟨"/a/", some "2024-01-01"⟩, ⟨"/b/", some "2024-03-01"⟩,
    ⟨"/c/", some "not-a-date"⟩] "not-a-date" (by decide) (by decide)

/-! ### Lemmas for content file parsing -/

theorem parseLinesGo_cons (hd : List (String × String)) (line : String) (rest : List String) :
    parseLinesGo hd (line :: rest) =
      match headerKeyOf line with
      | some k =>
        if k = "content" then dictSet hd "content_raw" (String.intercalate "\n" rest)
        else parseLinesGo (dictSet hd k (headerValOf line)) rest
      | none => parseLinesGo hd rest := by
  simp only [parseLinesGo, headerKeyOf, headerValOf]
  cases hf : firstTokenSplit line.toList with
  | none => rfl
  | some p =>
    by_cases hc : endsWithColon p.1 = true
    · simp [hc]
    · simp [hc]

theorem parseLinesGo_content_split (pre : List String) (cl : String) (rest : List String)
    (hpre : ∀ l ∈ pre, headerKeyOf l ≠ some "content")
    (hcl : headerKeyOf cl = some "content") :
    ∀ hd : List (String × String),
      parseLinesGo hd (pre ++ cl :: rest) =
        dictSet (parseLinesGo hd pre) "content_raw" (String.intercalate "\n" rest) := by
  induction pre with
  | nil =>
    intro hd
    simp only [List.nil_append]
    rw [parseLinesGo_cons, hcl]
    simp [parseLinesGo]
  | cons x pre ih =>
    intro hd
    have hx : headerKeyOf x ≠ some "content" := hpre x (List.mem_cons_self x pre)
    have hpre2 : ∀ l ∈ pre, headerKeyOf l ≠ some "content" :=
      fun l hl => hpre l (List.mem_cons_of_mem x hl)
    simp only [List.cons_append]
    rw [parseLinesGo_cons hd x (pre ++ cl :: rest), parseLinesGo_cons hd x pre]
    cases hk : headerKeyOf x with
    | none => exact ih hpre2 hd
    | some k =>
      have hkc : ¬ k = "content" := fun he => hx (by rw [hk, he])
      simp only [if_neg hkc]
      exact ih hpre2 _

theorem parseLinesGo_no_content (ls : List String)
    (hno : ∀ l ∈ ls, headerKeyOf l ≠ some "content")
    (hnoraw : ∀ l ∈ ls, headerKeyOf l ≠ some "content_raw") :
    ∀ hd : List (String × String),
      (parseLinesGo hd ls).lookup "content_raw" = hd.lookup "content_raw" := by
  induction ls with
  | nil => intro hd; rfl
  | cons x rest ih =>
    intro hd
    have hnor : ∀ l ∈ rest, headerKeyOf l ≠ some "content" :=
      fun l hl => hno l (List.mem_cons_of_mem x hl)
    have hnorawr : ∀ l ∈ rest, headerKeyOf l ≠ some "content_raw" :=
      fun l hl => hnoraw l (List.mem_cons_of_mem x hl)
    rw [parseLinesGo_cons]
    cases hk : headerKeyOf x with
    | none => exact ih hnor hnorawr hd
    | some k =>
      have h1 : ¬ k = "content" :=
        fun he => hno x (List.mem_cons_self x rest) (by rw [hk, he])
      have h2 : ("content_raw" : String) ≠ k :=
        fun he => hnoraw x (List.mem_cons_self x rest) (by rw [hk, ← he])
      simp only [if_neg h1]
      rw [ih hnor hnorawr _, lookup_dictSet_ne hd k _ "content_raw" h2]

theorem parseLinesGo_template_keep (ls : List String)
    (hno : ∀ l ∈ ls.takeWhile (fun l => !(isContentLine l)),
      headerKeyOf l ≠ some "template") :
    ∀ hd : List (String × String),
      (parseLinesGo hd ls).lookup "template" = hd.lookup "template" := by
  induction ls with
  | nil => intro hd; rfl
  | cons x rest ih =>
    intro hd
    rw [parseLinesGo_cons]
    cases hk : headerKeyOf x with
    | none =>
      have hcl : isContentLine x = false := by
        simp [isContentLine, hk]
      have hno2 : ∀ l ∈ rest.takeWhile (fun l => !(isContentLine l)),
          headerKeyOf l ≠ some "template" := by
        intro l hl
        refine hno l ?_
        rw [List.takeWhile_cons, hcl]
        exact List.mem_cons_of_mem x hl
      exact ih hno2 hd
    | some k =>
      by_cases hkc : k = "content"
      · simp only [hkc, if_pos rfl]
        exact lookup_dictSet_ne hd "content_raw" _ "template" (by decide)
      · have hcl : isContentLine x = false := by
          simp [isContentLine, hk, hkc]
        have hxin : x ∈ (x :: rest).takeWhile (fun l => !(isContentLine l)) := by
          rw [List.takeWhile_cons, hcl]
          exact List.mem_cons_self x _
        have hkt : ¬ k = "template" :=
          fun he => hno x hxin (by rw [hk, he])
        have hno2 : ∀ l ∈ rest.takeWhile (fun l => !(isContentLine l)),
            headerKeyOf l ≠ some "template" := by
          intro l hl
          refine hno l ?_
          rw [List.takeWhile_cons, hcl]
          exact List.mem_cons_of_mem x hl
        simp only [if_neg hkc]
        rw [ih hno2 _, lookup_dictSet_ne hd k _ "template" (fun he => hkt he.symm)]

/-! ### Claim C7 -/

/-- C7 counterexample: the file consisting of the single line
content_raw: evil has no content sentinel (its only header key is
content_raw, not content), yet its raw content is the string evil rather
than the empty string, because the header assignment writes straight into
the content_raw slot of the header dictionary.  This refutes the final
part of the claim, that a file with no content sentinel yields empty raw
content. -/
theorem c7_counterexample :
    (∀ l ∈ processedLines ["content_raw: evil"], headerKeyOf l ≠ some "content") ∧
    (parse_content_file ["content_raw: evil"]).lookup "content_raw" = some "evil" ∧
    (parse_content_file ["content_raw: evil"]).lookup "content_raw" ≠ some "" := by
  decide

/-- C7 (amended): lines whose stripped form begins with a hash are
discarded wherever they occur; a processed line whose first token ends in
a colon and whose key is not content sets that header field and scanning
continues; at the first line whose key is content every remaining
processed line — header lookalikes included — is stored, joined by
newlines, as the raw content and scanning stops at once; and a file with
no content sentinel keeps the empty default raw content unless some
header line carries the literal key content_raw, which writes the field
directly. -/
theorem c7_parse :
    (∀ (pre : List String) (l : String) (post : List String),
        strStartsWithChar (pyStrip l) '#' = true →
        parse_content_file (pre ++ l :: post) = parse_content_file (pre ++ post)) ∧
    (∀ (hd : List (String × String)) (line : String) (rest : List String) (k : String),
        headerKeyOf line = some k → k ≠ "content" →
        parseLinesGo hd (line :: rest) =
          parseLinesGo (dictSet hd k (headerValOf line)) rest) ∧
    (∀ (lines pre : List String) (cl : String) (rest : List String),
        processedLines lines = pre ++ cl :: rest →
        (∀ l ∈ pre, headerKeyOf l ≠ some "content") →
        headerKeyOf cl = some "content" →
        (parse_content_file lines).lookup "content_raw" =
          some (String.intercalate "\n" rest)) ∧
    (∀ lines : List String,
        (∀ l ∈ processedLines lines, headerKeyOf l ≠ some "content") →
        (∀ l ∈ processedLines lines, headerKeyOf l ≠ some "content_raw") →
        (parse_content_file lines).lookup "content_raw" = some "") := by
  refine ⟨?_, ?_, ?_, ?_⟩
  · intro pre l post h
    unfold parse_content_file
    congr 1
    unfold processedLines
    rw [List.map_append, List.map_cons, List.filter_append, List.filter_cons,
      List.map_append, List.filter_append]
    simp only [pyStrip, String.toList] at h
    simp [h, String.toList]
  · intro hd line rest k hk hkc
    rw [parseLinesGo_cons, hk]
    simp [hkc]
  · intro lines pre cl rest hsplit hpre hcl
    unfold parse_content_file
    rw [hsplit, parseLinesGo_content_split pre cl rest hpre hcl initHeaderDict]
    exact lookup_dictSet_self _ _ _
  · intro lines h1 h2
    unfold parse_content_file
    rw [parseLinesGo_no_content (processedLines lines) h1 h2 initHeaderDict]
    rfl

/-- C7 witness: the amended theorem applied to the concrete example file
of the specification: the comment line is discarded, the date header sets
its field, the content sentinel captures the remaining line, and a file
with only ordinary headers keeps the empty raw content. -/
theorem c7_parse_witness :
    parse_content_file (["title: Hello"] ++ "# note" :: ["content:", "**world**"]) =
      parse_content_file (["title: Hello"] ++ ["content:", "**world**"]) ∧
    parseLinesGo initHeaderDict ("date: 2024-01-01" :: ["content:"]) =
      parseLinesGo (dictSet initHeaderDict "date" (headerValOf "date: 2024-01-01"))
        ["content:"] ∧
    (parse_content_file ["# comment", "title: Hello", "content:", "**world**"]).lookup
      "content_raw" = some (String.intercalate "\n" ["**world**"]) ∧
    (parse_content_file ["title: Hello"]).lookup "content_raw" = some "" :=
  ⟨c7_parse.1 ["title: Hello"] "# note" ["content:", "**world**"] (by decide),
   c7_parse.2.1 initHeaderDict "date: 2024-01-01" ["content:"] "date" (by decide) (by decide),
   c7_parse.2.2.1 ["# comment", "title: Hello", "content:", "**world**"]
     ["title: Hello"] "content:" ["**world**"] (by decide) (by decide) (by decide),
   c7_parse.2.2.2 ["title: Hello"] (by decide) (by decide)⟩

/-! ### Claim C6 -/

/-- C6: a page whose content header (the processed lines before the first
content sentinel) carries no explicit template key resolves its template
name to gallery when the page has at least one child and to leaf when it
has none; an explicitly named template that is absent from the template
registry falls back to the leaf template; and when the leaf template is
itself absent the selection is the fatal abort, modelled as none. -/
theorem c6_template_selection :
    (∀ lines : List String,
        (∀ l ∈ (processedLines lines).takeWhile (fun l => !(isContentLine l)),
          headerKeyOf l ≠ some "template") →
        (parse_content_file lines).lookup "template" = some "default") ∧
    (∀ (lines : List String) (pageDict : List (String × Nat)) (hpath : String)
        (subdirs : List String),
        (parse_content_file lines).lookup "template" = some "default" →
        resolvedTemplateName lines (childrenOf pageDict hpath subdirs).length =
          (if 0 < (childrenOf pageDict hpath subdirs).length then "gallery" else "leaf")) ∧
    (∀ (registry : List String) (name : String),
        registry.contains name = false → registry.contains "leaf" = true →
        selectTemplate registry name = some "leaf") ∧
    (∀ (registry : List String) (name : String),
        registry.contains name = false → registry.contains "leaf" = false →
        selectTemplate registry name = none) := by
  refine ⟨?_, ?_, ?_, ?_⟩
  · intro lines hno
    unfold parse_content_file
    rw [parseLinesGo_template_keep (processedLines lines) hno initHeaderDict]
    rfl
  · intro lines pageDict hpath subdirs h
    unfold resolvedTemplateName
    rw [h]
    rfl
  · intro registry name h1 h2
    unfold selectTemplate
    rw [h1, h2]
    simp
  · intro registry name h1 h2
    unfold selectTemplate
    rw [h1, h2]
    simp

/-- C6 witness: the theorem applied at concrete inputs: a file whose only
template header sits in the body keeps the default, the default resolves
to gallery for one child and would resolve to leaf for none, an unknown
name falls back to leaf, and an empty registry aborts. -/
theorem c6_template_selection_witness :
    (parse_content_file ["title: T", "content:", "template: ignored"]).lookup "template" =
      some "default" ∧
    resolvedTemplateName ["title: T"] (childrenOf [("/x/a/", 7)] "/x/" ["1.a"]).length =
      (if 0 < (childrenOf [("/x/a/", 7)] "/x/" ["1.a"]).length then "gallery" else "leaf") ∧
    selectTemplate ["leaf", "gallery"] "fancy" = some "leaf" ∧
    selectTemplate ["top"] "fancy" = none :=
  ⟨c6_template_selection.1 ["title: T", "content:", "template: ignored"] (by decide),
   c6_template_selection.2.1 ["title: T"] [("/x/a/", 7)] "/x/" ["1.a"] (by decide),
   c6_template_selection.2.2.1 ["leaf", "gallery"] "fancy" (by decide) (by decide),
   c6_template_selection.2.2.2 ["top"] "fancy" (by decide) (by decide)⟩

/-! ### Lemmas for the second, incremental run -/

theorem renderPages_skip (now : Nat) (ps : List PageUnit) (fs : FS)
    (h : ∀ p ∈ ps, ∃ sm dm, p.contentMtime = some sm ∧
        fs.lookup p.destFile = some dm ∧ sm ≤ dm) :
    renderPages true now fs ps = (fs, ps.map (fun _ => []), []) := by
  induction ps with
  | nil => rfl
  | cons p rest ih =>
    obtain ⟨sm, dm, h1, h2, h3⟩ := h p (List.mem_cons_self p rest)
    have hr : render true now fs p = (fs, []) := by
      simp [render, h1, h2, h3]
    simp only [renderPages, hr]
    rw [ih (fun q hq => h q (List.mem_cons_of_mem p hq))]
    simp

theorem renderTagPages_skip_all (now : Nat) (tps : List TagPage) (fs : FS) :
    renderTagPages true now [] fs tps = (fs, tps.map (fun _ => [])) := by
  induction tps with
  | nil => rfl
  | cons tp rest ih =>
    simp [renderTagPages, ih]

theorem render_top_always (now : Nat) (fs : FS) (tp : PageUnit)
    (h1 : tp.contentMtime = none) (h2 : mediaDestsUsed tp = []) :
    render true now fs tp = (updateFS fs tp.destFile now, [tp.destFile]) := by
  have hb : renderBody now fs tp = (updateFS fs tp.destFile now, [tp.destFile]) := by
    unfold renderBody
    by_cases hc : (!tp.isVirtual && tp.srcIsDir) = true
    · have hmap : tp.media.map Prod.fst = [] := by
        have h3 := h2
        simp only [mediaDestsUsed, hc, if_true] at h3
        exact h3
      have hm : tp.media = [] := List.map_eq_nil_iff.mp hmap
      simp [hc, hm, copyMediaFiles]
    · simp [hc]
  unfold render
  rw [h1]
  cases fs.lookup tp.destFile <;> exact hb

/-! ### Claim C1 -/

/-- C1 counterexample: a site with one real page, one tag page and a top
page is built in full mode at time 10 over source mtimes at most 10, then
rebuilt in incremental mode at time 20 with no source changes.  The second
run leaves every real page and tag page untouched, but the top page is
unconditionally re-rendered (its virtual PageUnit has no content file, so
the incremental skip test never fires), so its modified list holds its
destination file and is not empty — refuting the claim that the second run
writes nothing and leaves every modified list empty. -/
theorem c1_counterexample :
    (dump_loop true 20 (dump_loop false 10 [] exSite).fs exSite).pageMods = [[]] ∧
    (dump_loop true 20 (dump_loop false 10 [] exSite).fs exSite).tagMods = [[]] ∧
    (dump_loop true 20 (dump_loop false 10 [] exSite).fs exSite).topMods =
      ["/www/index.html"] ∧
    ¬ ((dump_loop true 20 (dump_loop false 10 [] exSite).fs exSite).topMods = []) := by
  decide

theorem dump_loop_skip_run (s : Site) (fs1 : FS) (now2 : Nat)
    (hskip : ∀ p ∈ s.pages, ∃ sm dm, p.contentMtime = some sm ∧
        fs1.lookup p.destFile = some dm ∧ sm ≤ dm)
    (htop : ∀ tp, s.topPage = some tp → tp.contentMtime = none ∧ mediaDestsUsed tp = []) :
    (s.topPage = none →
      dump_loop true now2 fs1 s =
        ⟨fs1, s.pages.map (fun _ => []), [], s.tagPages.map (fun _ => []), []⟩) ∧
    (∀ tp, s.topPage = some tp →
      dump_loop true now2 fs1 s =
        ⟨updateFS fs1 tp.destFile now2, s.pages.map (fun _ => []), [],
          s.tagPages.map (fun _ => []), [tp.destFile]⟩) := by
  have hrp2 : renderPages true now2 fs1 s.pages =
      (fs1, s.pages.map (fun _ => []), []) :=
    renderPages_skip now2 s.pages fs1 hskip
  have hrt2 : renderTagPages true now2 [] fs1 s.tagPages =
      (fs1, s.tagPages.map (fun _ => [])) :=
    renderTagPages_skip_all now2 s.tagPages fs1
  constructor
  · intro htp
    simp [dump_loop, htp, hrp2, hrt2]
  · intro tp htp
    obtain ⟨htc, htm⟩ := htop tp htp
    have hrtop : render true now2 fs1 tp =
        (updateFS fs1 tp.destFile now2, [tp.destFile]) :=
      render_top_always now2 fs1 tp htc htm
    simp [dump_loop, htp, hrp2, hrt2, hrtop]

/-- C1 (amended): after a full run at time now1 (no earlier than any
content mtime, with all written destination paths mutually distinct), a
second incremental run with unchanged sources skips every real page
(modified lists all empty), renders no tag page (updated tags stays empty,
tag modified lists all empty), and writes nothing at all when there is no
top page; but a top page, when present, is unconditionally re-rendered:
the second run writes exactly its destination file and its modified list
is that one file, never empty. -/
theorem c1_incremental_after_full (s : Site) (fs0 : FS) (now1 now2 : Nat)
    (hsm : ∀ p ∈ s.pages, ∃ sm, p.contentMtime = some sm ∧ sm ≤ now1)
    (hpair : s.pages.Pairwise (fun a b => a.destFile ∉ writesOf b))
    (htagw : ∀ p ∈ s.pages, p.destFile ∉ tagPagesWrites s.tagPages)
    (htopw : ∀ p ∈ s.pages, ∀ tp, s.topPage = some tp → p.destFile ∉ writesOf tp)
    (htop : ∀ tp, s.topPage = some tp → tp.contentMtime = none ∧ mediaDestsUsed tp = []) :
    ((dump_loop true now2 (dump_loop false now1 fs0 s).fs s).pageMods =
        s.pages.map (fun _ => [])) ∧
    ((dump_loop true now2 (dump_loop false now1 fs0 s).fs s).tagMods =
        s.tagPages.map (fun _ => [])) ∧
    ((dump_loop true now2 (dump_loop false now1 fs0 s).fs s).updatedTags = []) ∧
    (s.topPage = none →
      (dump_loop true now2 (dump_loop false now1 fs0 s).fs s).fs =
          (dump_loop false now1 fs0 s).fs ∧
      (dump_loop true now2 (dump_loop false now1 fs0 s).fs s).topMods = []) ∧
    (∀ tp, s.topPage = some tp →
      (dump_loop true now2 (dump_loop false now1 fs0 s).fs s).fs =
          updateFS (dump_loop false now1 fs0 s).fs tp.destFile now2 ∧
      (dump_loop true now2 (dump_loop false now1 fs0 s).fs s).topMods = [tp.destFile]) := by
  have hfresh : ∀ p ∈ s.pages,
      (dump_loop false now1 fs0 s).fs.lookup p.destFile = some now1 := by
    intro p hp
    have h1 : (renderPages false now1 fs0 s.pages).1.lookup p.destFile = some now1 :=
      renderPages_full_fresh now1 s.pages fs0 hpair p hp
    have h2 : (renderTagPages false now1 (renderPages false now1 fs0 s.pages).2.2
        (renderPages false now1 fs0 s.pages).1 s.tagPages).1.lookup p.destFile =
          some now1 := by
      rw [lookup_renderTagPages_ne false now1 _ s.tagPages _ _ (htagw p hp)]
      exact h1
    cases htp : s.topPage with
    | none =>
      simp only [dump_loop, htp]
      exact h2
    | some tp =>
      simp only [dump_loop, htp]
      rw [lookup_render_ne false now1 _ tp p.destFile (htopw p hp tp htp)]
      exact h2
  have hskip : ∀ p ∈ s.pages, ∃ sm dm, p.contentMtime = some sm ∧
      (dump_loop false now1 fs0 s).fs.lookup p.destFile = some dm ∧ sm ≤ dm := by
    intro p hp
    obtain ⟨sm, h1, h2⟩ := hsm p hp
    exact ⟨sm, now1, h1, hfresh p hp, h2⟩
  have hd := dump_loop_skip_run s (dump_loop false now1 fs0 s).fs now2 hskip htop
  cases htp : s.topPage with
  | none =>
    have hd2 := hd.1 htp
    refine ⟨by rw [hd2], by rw [hd2], by rw [hd2],
      fun _ => ⟨by rw [hd2], by rw [hd2]⟩, ?_⟩
    intro tp h
    cases h
  | some tp =>
    have hd2 := hd.2 tp htp
    refine ⟨by rw [hd2], by rw [hd2], by rw [hd2], ?_, ?_⟩
    · intro h
      cases h
    · intro tp2 h
      injection h with he
      subst he
      exact ⟨by rw [hd2], by rw [hd2]⟩

/-- C1 witness: the amended theorem applied to the concrete one-page site
with a tag page and a top page: the second run leaves page and tag
modified lists empty and writes exactly the top page destination. -/
theorem c1_incremental_after_full_witness :
    (dump_loop true 20 (dump_loop false 10 [] exSite).fs exSite).pageMods =
      exSite.pages.map (fun _ => []) ∧
    (dump_loop true 20 (dump_loop false 10 [] exSite).fs exSite).tagMods =
      exSite.tagPages.map (fun _ => []) ∧
    (dump_loop true 20 (dump_loop false 10 [] exSite).fs exSite).fs =
      updateFS (dump_loop false 10 [] exSite).fs exTopPage.destFile 20 ∧
    (dump_loop true 20 (dump_loop false 10 [] exSite).fs exSite).topMods =
      [exTopPage.destFile] := by
  have h := c1_incremental_after_full exSite [] 10 20
    (by decide)
    (by decide)
    (by decide)
    (by
      intro p hp tp htp
      have he : exTopPage = tp := by
        have h2 : some exTopPage = some tp := htp
        injection h2
      subst he
      have hp2 : p = exRealPage := by simpa [exSite] using hp
      subst hp2
      decide)
    (by
      intro tp htp
      have he : exTopPage = tp := by
        have h2 : some exTopPage = some tp := htp
        injection h2
      subst he
      exact ⟨rfl, rfl⟩)
  exact ⟨h.1, h.2.1, (h.2.2.2.2 exTopPage rfl).1, (h.2.2.2.2 exTopPage rfl).2⟩
